import Mathlib

/-!
Shallow embedding of the ABC-to-MIDI converter core
(`src/abcParser.js`, `src/midiGenerator.js`), together with theorems
settling the behavioural claims about it.

Conventions of the embedding:
* JS strings are modelled as `String` / `List Char`; per-character work is
  done on `List Char`.
* JS numbers are modelled as `Int` (MIDI numbers, octaves), `Nat`
  (indices, counts) and `Rat` (note durations, which the source stores as
  `parseFloat` results and compares against the fractional keys of the
  duration table).
* The body-note regex `([A-Ga-g])([^,']*)([,']*)(\d*)` used in
  `parseBody` is embedded as an explicit scanner.  Every group after the
  leading letter is nullable, so the JS backtracking engine never
  backtracks on this pattern: each match is the leftmost letter followed
  by the maximal run of non-`,`/`'` characters, then the maximal run of
  `,`/`'` characters, then the maximal digit run.  The scanner below
  reproduces exactly that, using an explicit fuel argument (the length of
  the remaining input bounds the number of matches).
-/

/-- The apostrophe character (octave-up marker in the source's grammar). -/
def apos : Char := Char.ofNat 39

/-- Whitespace as trimmed by JS `String.prototype.trim` / matched by `\s`
(restricted to the ASCII whitespace actually exercised by the program). -/
def isWS (c : Char) : Bool := c == ' ' || c == '\t' || c == '\n' || c == '\r'

/-- JS `String.prototype.trim`. -/
def jsTrim (l : List Char) : List Char :=
  ((l.dropWhile isWS).reverse.dropWhile isWS).reverse

/-- JS `String.prototype.split('\n')`: `""` splits to `[""]`, separators
delimit possibly empty fields. -/
def splitNl : List Char → List (List Char)
  | [] => [[]]
  | c :: cs =>
    if c = '\n' then [] :: splitNl cs
    else
      match splitNl cs with
      | [] => [[c]]
      | h :: t => (c :: h) :: t

/-- JS `Array.prototype.join(' ')` on a list of lines. -/
def joinSp : List (List Char) → List Char
  | [] => []
  | [l] => l
  | l :: ls => l ++ ' ' :: joinSp ls

/-- JS `String.prototype.startsWith(pat)`: `pat` is the first argument. -/
def leadsWith : List Char → List Char → Bool
  | [], _ => true
  | _ :: _, [] => false
  | p :: ps, c :: cs => p == c && leadsWith ps cs

/-- JS `String.prototype.includes(pat)` for a fixed pattern. -/
def hasSub (pat : List Char) : List Char → Bool
  | [] => leadsWith pat []
  | c :: cs => leadsWith pat (c :: cs) || hasSub pat cs

/-- `[...new Set(chars)]`: deduplication keeping first occurrences. -/
def dedupChars (seen : List Char) : List Char → List Char
  | [] => []
  | c :: cs =>
    if seen.contains c then dedupChars seen cs
    else c :: dedupChars (c :: seen) cs

/-- Value of a string of decimal digits (`parseFloat`/`parseInt` on an
all-digit string; JS float precision loss on huge inputs is not
modelled). -/
def digitsToNat (l : List Char) : Nat :=
  l.foldl (fun n c => 10 * n + (c.toNat - 48)) 0

/-- JS `parseInt(s)` (radix 10): skip whitespace, optional sign, maximal
leading digit run; `none` models `NaN`. -/
def jsParseInt (l : List Char) : Option Int :=
  let l := l.dropWhile isWS
  match l with
  | '-' :: rest =>
    let ds := rest.takeWhile Char.isDigit
    if ds.isEmpty then none else some (-(digitsToNat ds : Int))
  | '+' :: rest =>
    let ds := rest.takeWhile Char.isDigit
    if ds.isEmpty then none else some (digitsToNat ds : Int)
  | _ =>
    let ds := l.takeWhile Char.isDigit
    if ds.isEmpty then none else some (digitsToNat ds : Int)

/-- One attempt of the tempo regex `(\d+)\/(\d+)=(\d+)` anchored at the
current position; returns the third group.  Greedy digit runs never
backtrack here: a shorter run would leave a digit where `/` or `=` is
required. -/
def tryTempoAt (l : List Char) : Option (List Char) :=
  let d1 := l.takeWhile Char.isDigit
  let r1 := l.dropWhile Char.isDigit
  if d1.isEmpty then none else
  match r1 with
  | '/' :: r2 =>
    let d2 := r2.takeWhile Char.isDigit
    let r3 := r2.dropWhile Char.isDigit
    if d2.isEmpty then none else
    match r3 with
    | '=' :: r4 =>
      let d3 := r4.takeWhile Char.isDigit
      if d3.isEmpty then none else some d3
    | _ => none
  | _ => none

/-- Leftmost match of `(\d+)\/(\d+)=(\d+)` (JS `String.prototype.match`). -/
def tempoRegexFind : List Char → Option (List Char)
  | [] => none
  | c :: cs =>
    match tryTempoAt (c :: cs) with
    | some d => some d
    | none => tempoRegexFind cs

/-- `parseTempo` from `abcParser.js`: `"a/b=n"` gives `n`, else a bare
`parseInt`, else the default 120. -/
def parseTempo (t : List Char) : Int :=
  match tempoRegexFind t with
  | some bpm => (digitsToNat bpm : Int)
  | none =>
    match jsParseInt t with
    | some n => n
    | none => 120

/-! ## Data model -/

/-- One parsed note, as pushed by `parseBody` in `abcParser.js`.
`octave` is `currentOctave + octaveOffset`; the source initialises
`currentOctave = 4` and never updates it (the accidental/octave
carry-over variables are declared but unused). -/
structure Note where
  note : Char
  midiNote : Int
  duration : Rat
  accidental : String
  octave : Int
deriving DecidableEq

/-- The header object built by `parseHeader`.  `number` is `none` while
the `X:` field was never assigned; when assigned, the inner `Option Int`
is the `parseInt` result (`none` modelling `NaN`). -/
structure Header where
  title : String
  key : String
  meter : String
  tempo : Int
  lineCount : Nat
  number : Option (Option Int)
  defaultLength : Option String
deriving DecidableEq

/-- Side record built by `extractMetadata`. -/
structure Metadata where
  comments : List String
  barCount : Nat
deriving DecidableEq

/-- Result of `parse`. -/
structure ParsedMusic where
  header : Header
  body : List Note
  metadata : Metadata
deriving DecidableEq

/-- The `{isValid, errors}` shape returned by the validators. -/
structure ValidationResult where
  isValid : Bool
  errors : List String
deriving DecidableEq

/-! ## Body parsing (`parseBody`) -/

/-- The character class `[A-Ga-g]` of the note regex. -/
def isNoteLetter (c : Char) : Bool :=
  (65 ≤ c.toNat && c.toNat ≤ 71) || (97 ≤ c.toNat && c.toNat ≤ 103)

/-- Member of the third regex group's class `[,']`. -/
def isMk (c : Char) : Bool := c == ',' || c == apos

/-- The `noteToMidi` table of `abcParser.js` (`C4 = 60`), with the
`|| 60` fallback of `parseBody` folded in as the default branch (it is
unreachable for regex-produced letters, none of which map to `0`). -/
def noteToMidi (c : Char) : Int :=
  if c = 'C' then 60 else if c = 'D' then 62 else if c = 'E' then 64
  else if c = 'F' then 65 else if c = 'G' then 67 else if c = 'A' then 69
  else if c = 'B' then 71 else if c = 'c' then 72 else if c = 'd' then 74
  else if c = 'e' then 76 else if c = 'f' then 77 else if c = 'g' then 79
  else if c = 'a' then 81 else if c = 'b' then 83 else 60

/-- Note construction from the four captured groups, exactly as in the
loop body of `parseBody`: `^` contributes +1 and `_` contributes -1, a present `=` then
overwrites the offset with 0; the octave offset is the count of `'`
minus the count of `,`; an empty duration group defaults to 1. -/
def mkNote (c : Char) (acc oct dur : List Char) : Note :=
  let s0 : Int := (if acc.contains '^' then 1 else 0) +
    (if acc.contains '_' then -1 else 0)
  let semitoneOffset : Int := if acc.contains '=' then 0 else s0
  let ups : Int := if oct.contains apos then (oct.count apos : Int) else 0
  let downs : Int := if oct.contains ',' then (oct.count ',' : Int) else 0
  let octaveOffset : Int := ups - downs
  { note := c.toUpper
    midiNote := noteToMidi c + semitoneOffset + octaveOffset * 12
    duration := if dur.isEmpty then 1 else (digitsToNat dur : Rat)
    accidental := String.mk acc
    octave := 4 + octaveOffset }

/-- The `exec` loop of `parseBody` over the joined body text.  Each
iteration either skips a non-letter character or consumes one full match
(letter, maximal `[^,']*` run, maximal `[,']*` run, maximal `\d*` run).
The fuel argument only bounds recursion; `scanBody` supplies the input
length, which suffices since every step consumes at least one
character. -/
def scanBodyAux : Nat → List Char → List Note
  | 0, _ => []
  | _ + 1, [] => []
  | fuel + 1, c :: rest =>
    if isNoteLetter c then
      let acc := rest.takeWhile (fun ch => !isMk ch)
      let r1 := rest.dropWhile (fun ch => !isMk ch)
      let oct := r1.takeWhile isMk
      let r2 := r1.dropWhile isMk
      let dur := r2.takeWhile Char.isDigit
      let r3 := r2.dropWhile Char.isDigit
      mkNote c acc oct dur :: scanBodyAux fuel r3
    else
      scanBodyAux fuel rest

/-- Scan a full body text. -/
def scanBody (l : List Char) : List Note := scanBodyAux l.length l

/-- `parseBody(lines)`: join the body lines with a space and scan. -/
def parseBodyL (lines : List (List Char)) : List Note :=
  scanBody (joinSp lines)

/-- `parseBody` on `String` lines (entry point used in the theorems). -/
def parseBody (lines : List String) : List Note :=
  parseBodyL (lines.map String.data)

/-! ## Header parsing (`parseHeader`) and `parse` -/

/-- The initial header object of `parseHeader`. -/
def headerInit : Header :=
  { title := "Untitled", key := "C", meter := "4/4", tempo := 120
    lineCount := 0, number := none, defaultLength := none }

/-- The `for` loop of `parseHeader`: each line is trimmed and matched
against the recognised tag prefixes in source order; blank, `V:` and
`I:` lines are skipped; the first other line sets `lineCount` to its
index and breaks.  If the loop runs off the end of the lines,
`lineCount` keeps its previous (initial: 0) value. -/
def parseHeaderAux (h : Header) (i : Nat) : List (List Char) → Header
  | [] => h
  | l :: ls =>
    let t := jsTrim l
    if leadsWith "X:".data t then
      parseHeaderAux { h with number := some (jsParseInt (t.drop 2)) } (i + 1) ls
    else if leadsWith "T:".data t then
      parseHeaderAux { h with title := String.mk (t.drop 2) } (i + 1) ls
    else if leadsWith "K:".data t then
      parseHeaderAux { h with key := String.mk (t.drop 2) } (i + 1) ls
    else if leadsWith "M:".data t then
      parseHeaderAux { h with meter := String.mk (t.drop 2) } (i + 1) ls
    else if leadsWith "Q:".data t then
      parseHeaderAux { h with tempo := parseTempo (t.drop 2) } (i + 1) ls
    else if leadsWith "L:".data t then
      parseHeaderAux { h with defaultLength := some (String.mk (t.drop 2)) } (i + 1) ls
    else if t.isEmpty || leadsWith "V:".data t || leadsWith "I:".data t then
      parseHeaderAux h (i + 1) ls
    else
      { h with lineCount := i }

/-- `parseHeader(lines)`. -/
def parseHeader (lines : List (List Char)) : Header :=
  parseHeaderAux headerInit 0 lines

/-- `extractMetadata`: the `%.*$` multiline matches (first `%` of each
line to the line's end, then `substring(1).trim()`) and the count of
`|` characters. -/
def extractMetadata (l : List Char) : Metadata :=
  let comments := (splitNl l).filterMap fun ln =>
    if ln.contains '%' then
      some (String.mk (jsTrim ((ln.dropWhile (fun c => !(c == '%'))).drop 1)))
    else none
  { comments := comments, barCount := l.count '|' }

/-- `parse(abcString)`: trim, split into lines, parse the header, parse
the body from the lines at index `header.lineCount` onwards, attach
metadata extracted from the raw input. -/
def parse (s : String) : ParsedMusic :=
  let lines := splitNl (jsTrim s.data)
  let header := parseHeader lines
  { header := header
    body := parseBodyL (lines.drop header.lineCount)
    metadata := extractMetadata s.data }

/-! ## `validate` -/

/-- Error strings of `validate` (Spanish messages from the source). -/
def emptyMsg : String := "La notación ABC no puede estar vacía"

/-- Error for an input without any note letter. -/
def noNotesMsg : String := "No se encontraron notas válidas (A-G, a-g)"

/-- Error for a missing `K:` field. -/
def claveMsg : String := "Falta la clave (K:)"

/-- Error for a missing `M:` field. -/
def compasMsg : String := "Falta el compás (M:)"

/-- Character class `[^A-Ga-g\s,.'^_=\d|\[\](){}]` of the invalid-character
regex, negated: the allowed characters of the note section. -/
def isAllowedChar (c : Char) : Bool :=
  isNoteLetter c || isWS c || c == ',' || c == '.' || c == apos ||
  c == '^' || c == '_' || c == '=' || c.isDigit || c == '|' ||
  c == '[' || c == ']' || c == '(' || c == ')' || c == '{' || c == '}'

/-- The line filter of `validate`: drop lines starting (untrimmed) with a
recognised header tag (including `C:`, unlike `parseHeader`) and blank
lines; the survivors joined with a space form the note section. -/
def keepLine (ln : List Char) : Bool :=
  !leadsWith "X:".data ln && !leadsWith "T:".data ln &&
  !leadsWith "C:".data ln && !leadsWith "M:".data ln &&
  !leadsWith "L:".data ln && !leadsWith "K:".data ln &&
  !leadsWith "Q:".data ln && !(jsTrim ln).isEmpty

/-- The note section of `validate`. -/
def noteSectionOf (l : List Char) : List Char :=
  joinSp ((splitNl l).filter keepLine)

/-- The characters of the note section matched by the invalid-character
regex, in order and with duplicates. -/
def invalidCharsOf (l : List Char) : List Char :=
  (noteSectionOf l).filter (fun c => !isAllowedChar c)

/-- The single error entry naming every distinct invalid character once
(first-occurrence order, as `[...new Set(...)]` preserves). -/
def invalidCharsMsg (chars : List Char) : String :=
  "Caracteres inválidos en las notas: " ++
    String.intercalate ", " ((dedupChars [] chars).map fun c => String.mk [c])

/-- `validate(abcString)` from `abcParser.js`. -/
def validateL (l : List Char) : ValidationResult :=
  if (jsTrim l).isEmpty then
    { isValid := false, errors := [emptyMsg] }
  else
    let e1 : List String := if l.any isNoteLetter then [] else [noNotesMsg]
    let e2 : List String := if hasSub "K:".data l then [] else [claveMsg]
    let e3 : List String := if hasSub "M:".data l then [] else [compasMsg]
    let noteSection := noteSectionOf l
    let invalid := invalidCharsOf l
    let e4 : List String :=
      if noteSection.isEmpty then []
      else if invalid.isEmpty then []
      else [invalidCharsMsg invalid]
    let errors := e1 ++ e2 ++ e3 ++ e4
    { isValid := errors.isEmpty, errors := errors }

/-- `validate` on `String` input. -/
def validate (s : String) : ValidationResult := validateL s.data

/-! ## MIDI generation (`midiGenerator.js`) -/

/-- The `durationToTicks` table keyed by the relative duration value;
`none` models an absent key (JS `undefined`).  The fractional keys 0.25
and 0.5 are written `mkRat 1 4` and `mkRat 1 2` so that the definition
evaluates inside the kernel. -/
def durationToTicks (d : Rat) : Option String :=
  if d = mkRat 1 4 then some "T32"
  else if d = mkRat 1 2 then some "T16"
  else if d = 1 then some "T8"
  else if d = 2 then some "T4"
  else if d = 4 then some "T2"
  else if d = 8 then some "T1"
  else none

/-- `this.durationToTicks[d] || 'T8'` as used in `convertNotesToEvents`
(every table value is a truthy string, so `||` means `getD`). -/
def tickFor (d : Rat) : String := (durationToTicks d).getD "T8"

/-- The 12-entry `noteNames` table of `midiNoteToPitch` (written in two
halves; the value is the usual chromatic list from `"C"` to `"B"`). -/
def noteNames : List String :=
  ["C", "C#", "D", "D#", "E", "F"] ++ ["F#", "G", "G#", "A", "A#", "B"]

/-- JS array indexing `noteNames[i]` for a possibly negative `Int` index:
out-of-range (negative or ≥ 12) gives `undefined` (`none`).  JS `-0`
equals `0`, so an index of `-0` still hits entry 0. -/
def lookupName (i : Int) : Option String :=
  if 0 ≤ i then noteNames.get? i.toNat else none

/-- The value of the JS expression `noteNames[noteIndex] + octave`.
`octave` is a Number, so `+` is string concatenation only when the
lookup produced a string; when the lookup is `undefined`, `undefined +
octave` is NUMERIC addition and evaluates to the Number `NaN`. -/
inductive PitchResult where
  | str (s : String)
  | nan
deriving DecidableEq

/-- `midiNoteToPitch(midiNote)`: `noteIndex = midiNote % 12` (JS `%` is
the truncated remainder, `Int.tmod`), `octave = floor(midiNote/12) - 1`
(`Int.fdiv`), and `noteNames[noteIndex] + octave` — a concatenated pitch
string on a table hit, the Number `NaN` on a lookup miss. -/
def midiNoteToPitch (m : Int) : PitchResult :=
  match lookupName (Int.tmod m 12) with
  | some nm => .str (nm ++ toString (Int.fdiv m 12 - 1))
  | none => .nan

/-- The fields of a `MidiWriter.NoteEvent` that `convertNotesToEvents`
fills in.  `pitch` keeps the JS dynamic typing of
`noteNames[noteIndex] + octave`: a string, or `NaN` on a table miss. -/
structure NoteEvent where
  pitch : PitchResult
  duration : String
  velocity : Nat
  channel : Nat
deriving DecidableEq

/-- `convertNotesToEvents(notes, header)`: one event per note, in order,
pitch from `midiNoteToPitch` applied unconditionally (no range guard),
duration through the tick table with the `'T8'` fallback, velocity 100,
channel 0.  (The source's `currentTime` accumulator is dead code: its
value is never read.) -/
def convertNotesToEvents (notes : List Note) : List NoteEvent :=
  notes.map fun n =>
    { pitch := midiNoteToPitch n.midiNote
      duration := tickFor n.duration
      velocity := 100
      channel := 0 }

/-- Printed form of a duration inside a validation message.  The JS
template prints the float; durations are modelled as `Rat`, printed as
`num` or `num/den`. -/
def ratStr (d : Rat) : String :=
  if d.den = 1 then toString d.num
  else toString d.num ++ "/" ++ toString d.den

/-- The out-of-range message of `validateMidiNotes`; the cited index is
the 0-based position `i` plus 1. -/
def rangoMsg (i : Nat) (m : Int) : String :=
  "Nota " ++ toString (i + 1) ++ ": MIDI note " ++ toString m ++
    " fuera de rango (0-127)"

/-- The non-positive-duration message of `validateMidiNotes`; the cited
index is the 0-based position `i` plus 1. -/
def durMsg (i : Nat) (d : Rat) : String :=
  "Nota " ++ toString (i + 1) ++ ": Duración inválida " ++ ratStr d

/-- The `forEach` of `validateMidiNotes`: for the note at 0-based index
`i`, push the range message when `midiNote < 0 || midiNote > 127`, then
the duration message when `duration <= 0`. -/
def vmAux (i : Nat) : List Note → List String
  | [] => []
  | n :: ns =>
    ((if n.midiNote < 0 || 127 < n.midiNote then [rangoMsg i n.midiNote] else []) ++
      (if n.duration ≤ 0 then [durMsg i n.duration] else [])) ++ vmAux (i + 1) ns

/-- `validateMidiNotes(notes)`. -/
def validateMidiNotes (notes : List Note) : ValidationResult :=
  let errors := vmAux 0 notes
  { isValid := errors.isEmpty, errors := errors }

/-! ## Declarative description of `parseHeader`

The loop of `parseHeader` is characterised below by a declarative
reading, stated from the spec's wording: the scan keeps going over
recognised header-tag lines and skippable lines, each tag line updates
its field (the last one wins), and the boundary is the index of the
first other line (0 when the scan runs off the end). -/

/-- A trimmed line on which the scan of `parseHeader` continues: a
recognised tag line (`X: T: K: M: Q: L:`), a blank line, or one of the
skippable `V:`/`I:` lines. -/
def isHeaderishT (t : List Char) : Bool :=
  leadsWith "X:".data t || leadsWith "T:".data t || leadsWith "K:".data t ||
  leadsWith "M:".data t || leadsWith "Q:".data t || leadsWith "L:".data t ||
  t.isEmpty || leadsWith "V:".data t || leadsWith "I:".data t

/-- Index of the first line (untrimmed input lines) at which the header
scan stops, if any. -/
def firstBadIdx : List (List Char) → Option Nat
  | [] => none
  | l :: ls =>
    if isHeaderishT (jsTrim l) then (firstBadIdx ls).map (· + 1) else some 0

/-- The header/body boundary the code records: index of the first
non-header line, or 0 when every line is a header/skippable line (the
loop then never assigns `lineCount`). -/
def boundarySpec (lines : List (List Char)) : Nat :=
  (firstBadIdx lines).getD 0

/-- The effect of one scanned (trimmed) header line on the header
fields, mirroring the assignment made by the corresponding branch of the
loop; skippable lines leave the header unchanged. -/
def applyHeaderLine (h : Header) (t : List Char) : Header :=
  if leadsWith "X:".data t then { h with number := some (jsParseInt (t.drop 2)) }
  else if leadsWith "T:".data t then { h with title := String.mk (t.drop 2) }
  else if leadsWith "K:".data t then { h with key := String.mk (t.drop 2) }
  else if leadsWith "M:".data t then { h with meter := String.mk (t.drop 2) }
  else if leadsWith "Q:".data t then { h with tempo := parseTempo (t.drop 2) }
  else if leadsWith "L:".data t then { h with defaultLength := some (String.mk (t.drop 2)) }
  else h

/-- Declarative form of `parseHeader`: fold the field updates over the
scanned prefix of trimmed lines, and record the boundary. -/
def headerSpec (lines : List (List Char)) : Header :=
  { ((lines.map jsTrim).takeWhile isHeaderishT).foldl applyHeaderLine headerInit with
    lineCount := boundarySpec lines }

theorem applyHeaderLine_lineCount (h : Header) (t : List Char) :
    (applyHeaderLine h t).lineCount = h.lineCount := by
  simp only [applyHeaderLine]; split_ifs <;> rfl

theorem parseHeaderAux_cons (h : Header) (i : Nat) (l : List Char)
    (ls : List (List Char)) :
    parseHeaderAux h i (l :: ls) =
      if isHeaderishT (jsTrim l) then
        parseHeaderAux (applyHeaderLine h (jsTrim l)) (i + 1) ls
      else { h with lineCount := i } := by
  simp only [parseHeaderAux, applyHeaderLine, isHeaderishT, Bool.or_eq_true]
  split_ifs <;> simp_all

theorem parseHeaderAux_spec (ls : List (List Char)) : ∀ (h : Header) (i : Nat),
    parseHeaderAux h i ls =
      { ((ls.map jsTrim).takeWhile isHeaderishT).foldl applyHeaderLine h with
        lineCount :=
          match firstBadIdx ls with
          | some j => i + j
          | none => h.lineCount } := by
  induction ls with
  | nil => intro h i; simp [parseHeaderAux, firstBadIdx]
  | cons l ls ih =>
    intro h i
    rw [parseHeaderAux_cons]
    by_cases hl : isHeaderishT (jsTrim l)
    · rw [if_pos hl, ih]
      simp only [firstBadIdx, if_pos hl, List.map_cons, List.takeWhile_cons, hl]
      cases hfb : firstBadIdx ls <;>
        simp [applyHeaderLine_lineCount, Nat.add_assoc, Nat.add_comm 1]
    · rw [if_neg hl]
      simp only [firstBadIdx, if_neg hl, List.map_cons, List.takeWhile_cons]
      simp [hl]

theorem parseHeader_eq_headerSpec (lines : List (List Char)) :
    parseHeader lines = headerSpec lines := by
  rw [parseHeader, parseHeaderAux_spec, headerSpec, boundarySpec]
  cases h : firstBadIdx lines <;> simp [headerInit]

/-! ### Per-field reading of the header loop -/

theorem leadsWith_disj {p q : Char} {ps qs t : List Char} (hne : p ≠ q)
    (h : leadsWith (p :: ps) t = true) : leadsWith (q :: qs) t = false := by
  cases t with
  | nil => simp [leadsWith] at h
  | cons c cs =>
    simp only [leadsWith, Bool.and_eq_true, beq_iff_eq] at h
    have hqc : q ≠ c := fun hq => hne (h.1 ▸ hq ▸ rfl)
    simp [leadsWith, hqc]

theorem notT_of_X {t : List Char} (h : leadsWith ['X', ':'] t = true) :
    leadsWith ['T', ':'] t = false := leadsWith_disj (by decide) h

theorem notK_of_X {t : List Char} (h : leadsWith ['X', ':'] t = true) :
    leadsWith ['K', ':'] t = false := leadsWith_disj (by decide) h

theorem notK_of_T {t : List Char} (h : leadsWith ['T', ':'] t = true) :
    leadsWith ['K', ':'] t = false := leadsWith_disj (by decide) h

theorem notM_of_X {t : List Char} (h : leadsWith ['X', ':'] t = true) :
    leadsWith ['M', ':'] t = false := leadsWith_disj (by decide) h

theorem notM_of_T {t : List Char} (h : leadsWith ['T', ':'] t = true) :
    leadsWith ['M', ':'] t = false := leadsWith_disj (by decide) h

theorem notM_of_K {t : List Char} (h : leadsWith ['K', ':'] t = true) :
    leadsWith ['M', ':'] t = false := leadsWith_disj (by decide) h

theorem notQ_of_X {t : List Char} (h : leadsWith ['X', ':'] t = true) :
    leadsWith ['Q', ':'] t = false := leadsWith_disj (by decide) h

theorem notQ_of_T {t : List Char} (h : leadsWith ['T', ':'] t = true) :
    leadsWith ['Q', ':'] t = false := leadsWith_disj (by decide) h

theorem notQ_of_K {t : List Char} (h : leadsWith ['K', ':'] t = true) :
    leadsWith ['Q', ':'] t = false := leadsWith_disj (by decide) h

theorem notQ_of_M {t : List Char} (h : leadsWith ['M', ':'] t = true) :
    leadsWith ['Q', ':'] t = false := leadsWith_disj (by decide) h

theorem notL_of_X {t : List Char} (h : leadsWith ['X', ':'] t = true) :
    leadsWith ['L', ':'] t = false := leadsWith_disj (by decide) h

theorem notL_of_T {t : List Char} (h : leadsWith ['T', ':'] t = true) :
    leadsWith ['L', ':'] t = false := leadsWith_disj (by decide) h

theorem notL_of_K {t : List Char} (h : leadsWith ['K', ':'] t = true) :
    leadsWith ['L', ':'] t = false := leadsWith_disj (by decide) h

theorem notL_of_M {t : List Char} (h : leadsWith ['M', ':'] t = true) :
    leadsWith ['L', ':'] t = false := leadsWith_disj (by decide) h

theorem notL_of_Q {t : List Char} (h : leadsWith ['Q', ':'] t = true) :
    leadsWith ['L', ':'] t = false := leadsWith_disj (by decide) h

theorem applyHeaderLine_title (h : Header) (t : List Char) :
    (applyHeaderLine h t).title =
      if leadsWith "T:".data t then String.mk (t.drop 2) else h.title := by
  simp only [applyHeaderLine]
  split_ifs <;> simp_all [notT_of_X]

theorem applyHeaderLine_key (h : Header) (t : List Char) :
    (applyHeaderLine h t).key =
      if leadsWith "K:".data t then String.mk (t.drop 2) else h.key := by
  simp only [applyHeaderLine]
  split_ifs <;> simp_all [notK_of_X, notK_of_T]

theorem applyHeaderLine_meter (h : Header) (t : List Char) :
    (applyHeaderLine h t).meter =
      if leadsWith "M:".data t then String.mk (t.drop 2) else h.meter := by
  simp only [applyHeaderLine]
  split_ifs <;> simp_all [notM_of_X, notM_of_T, notM_of_K]

theorem applyHeaderLine_tempo (h : Header) (t : List Char) :
    (applyHeaderLine h t).tempo =
      if leadsWith "Q:".data t then parseTempo (t.drop 2) else h.tempo := by
  simp only [applyHeaderLine]
  split_ifs <;> simp_all [notQ_of_X, notQ_of_T, notQ_of_K, notQ_of_M]

theorem applyHeaderLine_number (h : Header) (t : List Char) :
    (applyHeaderLine h t).number =
      if leadsWith "X:".data t then some (jsParseInt (t.drop 2)) else h.number := by
  simp only [applyHeaderLine]
  split_ifs <;> simp_all

theorem applyHeaderLine_defaultLength (h : Header) (t : List Char) :
    (applyHeaderLine h t).defaultLength =
      if leadsWith "L:".data t then some (String.mk (t.drop 2)) else h.defaultLength := by
  simp only [applyHeaderLine]
  split_ifs <;> simp_all [notL_of_X, notL_of_T, notL_of_K, notL_of_M, notL_of_Q]

/-- The prefix of trimmed lines the header scan walks over. -/
def scannedPrefix (lines : List (List Char)) : List (List Char) :=
  (lines.map jsTrim).takeWhile isHeaderishT

/-- The title the spec ascribes to a header block: the last `T:` line of
the scanned prefix populates it, the default is `"Untitled"`. -/
def titleSpec (lines : List (List Char)) : String :=
  (scannedPrefix lines).foldl
    (fun acc t => if leadsWith "T:".data t then String.mk (t.drop 2) else acc) "Untitled"

/-- Spec key field: last `K:` line, default `"C"`. -/
def keySpec (lines : List (List Char)) : String :=
  (scannedPrefix lines).foldl
    (fun acc t => if leadsWith "K:".data t then String.mk (t.drop 2) else acc) "C"

/-- Spec meter field: last `M:` line, default `"4/4"`. -/
def meterSpec (lines : List (List Char)) : String :=
  (scannedPrefix lines).foldl
    (fun acc t => if leadsWith "M:".data t then String.mk (t.drop 2) else acc) "4/4"

/-- Spec tempo field: last `Q:` line through `parseTempo`, default 120. -/
def tempoSpec (lines : List (List Char)) : Int :=
  (scannedPrefix lines).foldl
    (fun acc t => if leadsWith "Q:".data t then parseTempo (t.drop 2) else acc) 120

/-- Spec reference-number field: last `X:` line through `parseInt`,
absent by default. -/
def numberSpec (lines : List (List Char)) : Option (Option Int) :=
  (scannedPrefix lines).foldl
    (fun acc t => if leadsWith "X:".data t then some (jsParseInt (t.drop 2)) else acc) none

/-- Spec default-length field: last `L:` line, absent by default. -/
def defaultLengthSpec (lines : List (List Char)) : Option String :=
  (scannedPrefix lines).foldl
    (fun acc t => if leadsWith "L:".data t then some (String.mk (t.drop 2)) else acc) none

theorem foldl_apply_title (pre : List (List Char)) : ∀ h : Header,
    (pre.foldl applyHeaderLine h).title =
      pre.foldl
        (fun acc t => if leadsWith "T:".data t then String.mk (t.drop 2) else acc)
        h.title := by
  induction pre with
  | nil => intro h; rfl
  | cons t pre ih =>
    intro h
    simp only [List.foldl_cons]
    rw [ih, applyHeaderLine_title]

theorem foldl_apply_key (pre : List (List Char)) : ∀ h : Header,
    (pre.foldl applyHeaderLine h).key =
      pre.foldl
        (fun acc t => if leadsWith "K:".data t then String.mk (t.drop 2) else acc)
        h.key := by
  induction pre with
  | nil => intro h; rfl
  | cons t pre ih =>
    intro h
    simp only [List.foldl_cons]
    rw [ih, applyHeaderLine_key]

theorem foldl_apply_meter (pre : List (List Char)) : ∀ h : Header,
    (pre.foldl applyHeaderLine h).meter =
      pre.foldl
        (fun acc t => if leadsWith "M:".data t then String.mk (t.drop 2) else acc)
        h.meter := by
  induction pre with
  | nil => intro h; rfl
  | cons t pre ih =>
    intro h
    simp only [List.foldl_cons]
    rw [ih, applyHeaderLine_meter]

theorem foldl_apply_tempo (pre : List (List Char)) : ∀ h : Header,
    (pre.foldl applyHeaderLine h).tempo =
      pre.foldl
        (fun acc t => if leadsWith "Q:".data t then parseTempo (t.drop 2) else acc)
        h.tempo := by
  induction pre with
  | nil => intro h; rfl
  | cons t pre ih =>
    intro h
    simp only [List.foldl_cons]
    rw [ih, applyHeaderLine_tempo]

theorem foldl_apply_number (pre : List (List Char)) : ∀ h : Header,
    (pre.foldl applyHeaderLine h).number =
      pre.foldl
        (fun acc t => if leadsWith "X:".data t then some (jsParseInt (t.drop 2)) else acc)
        h.number := by
  induction pre with
  | nil => intro h; rfl
  | cons t pre ih =>
    intro h
    simp only [List.foldl_cons]
    rw [ih, applyHeaderLine_number]

theorem foldl_apply_defaultLength (pre : List (List Char)) : ∀ h : Header,
    (pre.foldl applyHeaderLine h).defaultLength =
      pre.foldl
        (fun acc t => if leadsWith "L:".data t then some (String.mk (t.drop 2)) else acc)
        h.defaultLength := by
  induction pre with
  | nil => intro h; rfl
  | cons t pre ih =>
    intro h
    simp only [List.foldl_cons]
    rw [ih, applyHeaderLine_defaultLength]

/-- A fold that only updates on lines bearing a given tag keeps its
initial value when no line of the prefix bears the tag. -/
theorem foldl_tag_absent {β : Type} (g : List Char → β) (tag : List Char)
    (pre : List (List Char)) :
    ∀ init : β, (∀ t ∈ pre, leadsWith tag t = false) →
      pre.foldl (fun acc t => if leadsWith tag t then g t else acc) init = init := by
  induction pre with
  | nil => intro init _; rfl
  | cons t pre ih =>
    intro init habs
    simp only [List.foldl_cons, habs t (by simp), if_neg]
    exact ih init fun u hu => habs u (by simp [hu])

/-- Members of the scanned prefix are trimmed lines of the input. -/
theorem scannedPrefix_mem {lines : List (List Char)} {t : List Char}
    (ht : t ∈ scannedPrefix lines) : ∃ l ∈ lines, t = jsTrim l := by
  have h1 : t ∈ lines.map jsTrim :=
    (List.takeWhile_sublist isHeaderishT).subset ht
  obtain ⟨l, hl, rfl⟩ := List.mem_map.mp h1
  exact ⟨l, hl, rfl⟩

/-! ### Lemmas about `validateMidiNotes` -/

/-- The error accumulator is empty exactly when every note is in range
with positive duration. -/
theorem vmAux_eq_nil_iff (notes : List Note) : ∀ i : Nat,
    vmAux i notes = [] ↔
      ∀ n ∈ notes, 0 ≤ n.midiNote ∧ n.midiNote ≤ 127 ∧ 0 < n.duration := by
  induction notes with
  | nil => intro i; simp [vmAux]
  | cons n ns ih =>
    intro i
    constructor
    · intro habs
      have h1 : ¬(n.midiNote < 0 || 127 < n.midiNote) = true := by
        intro hc
        simp [vmAux, hc] at habs
      have h2 : ¬(n.duration ≤ 0) := by
        intro hc
        simp [vmAux, hc] at habs
      have h3 : vmAux (i + 1) ns = [] := by
        simp only [vmAux, h1, h2, if_false, ite_false, List.nil_append] at habs
        simpa using habs
      intro m hm
      rcases List.mem_cons.mp hm with rfl | hm'
      · simp only [Bool.or_eq_true, decide_eq_true_eq, not_or, not_lt] at h1
        exact ⟨h1.1, h1.2, not_le.mp h2⟩
      · exact (ih (i + 1)).mp h3 m hm'
    · intro h
      have hn := h n (List.mem_cons_self n ns)
      have h1 : ¬(n.midiNote < 0 || 127 < n.midiNote) = true := by
        simp only [Bool.or_eq_true, decide_eq_true_eq, not_or, not_lt]
        exact ⟨hn.1, hn.2.1⟩
      have h2 : ¬(n.duration ≤ 0) := not_le.mpr hn.2.2
      simp only [vmAux, h1, h2, if_false, ite_false, List.nil_append]
      simpa using (ih (i + 1)).mpr fun m hm => h m (List.mem_cons_of_mem n hm)

/-- An out-of-range note at 0-based position `j` contributes its range
error (citing `j + 1` inside the message) to the accumulator. -/
theorem vmAux_mem_rango (notes : List Note) : ∀ (i j : Nat) (hj : j < notes.length),
    ((notes.get ⟨j, hj⟩).midiNote < 0 ∨ 127 < (notes.get ⟨j, hj⟩).midiNote) →
    rangoMsg (i + j) ((notes.get ⟨j, hj⟩).midiNote) ∈ vmAux i notes := by
  induction notes with
  | nil => intro i j hj; simp at hj
  | cons n ns ih =>
    intro i j hj hcond
    cases j with
    | zero =>
      have hc : (n.midiNote < 0 || 127 < n.midiNote) = true := by
        simp only [Bool.or_eq_true, decide_eq_true_eq]
        simpa using hcond
      simp [vmAux, hc]
    | succ j =>
      have h2 : j < ns.length := by simpa using hj
      have hmem := ih (i + 1) j h2 (by simpa using hcond)
      simp only [vmAux, List.append_assoc]
      refine List.mem_append.mpr (Or.inr (List.mem_append.mpr (Or.inr ?_)))
      have harith : i + (j + 1) = (i + 1) + j := by omega
      simpa [harith] using hmem

/-- A non-positive-duration note at 0-based position `j` contributes its
duration error (citing `j + 1` inside the message) to the accumulator. -/
theorem vmAux_mem_dur (notes : List Note) : ∀ (i j : Nat) (hj : j < notes.length),
    (notes.get ⟨j, hj⟩).duration ≤ 0 →
    durMsg (i + j) ((notes.get ⟨j, hj⟩).duration) ∈ vmAux i notes := by
  induction notes with
  | nil => intro i j hj; simp at hj
  | cons n ns ih =>
    intro i j hj hcond
    cases j with
    | zero =>
      have hc : n.duration ≤ 0 := by simpa using hcond
      simp [vmAux, hc]
    | succ j =>
      have h2 : j < ns.length := by simpa using hj
      have hmem := ih (i + 1) j h2 (by simpa using hcond)
      simp only [vmAux, List.append_assoc]
      refine List.mem_append.mpr (Or.inr (List.mem_append.mpr (Or.inr ?_)))
      have harith : i + (j + 1) = (i + 1) + j := by omega
      simpa [harith] using hmem

/-! ### Lemmas about the body scanner -/

/-- Every constructed note has a nonnegative duration: the default is 1
and a captured digit string is a natural number. -/
theorem mkNote_duration_nonneg (c : Char) (acc oct dur : List Char) :
    0 ≤ (mkNote c acc oct dur).duration := by
  show 0 ≤ (if dur.isEmpty then (1 : Rat) else (digitsToNat dur : Rat))
  split
  · norm_num
  · exact_mod_cast Nat.zero_le _

/-- Every note the scanner produces has a nonnegative duration. -/
theorem scanBodyAux_duration_nonneg (fuel : Nat) : ∀ l : List Char,
    ∀ n ∈ scanBodyAux fuel l, 0 ≤ n.duration := by
  induction fuel with
  | zero => intro l n hn; simp [scanBodyAux] at hn
  | succ fuel ih =>
    intro l n hn
    cases l with
    | nil => simp [scanBodyAux] at hn
    | cons c rest =>
      by_cases hc : isNoteLetter c
      · simp only [scanBodyAux, hc, if_true, List.mem_cons] at hn
        rcases hn with rfl | hn'
        · exact mkNote_duration_nonneg ..
        · exact ih _ n hn'
      · simp only [scanBodyAux, hc, if_false, ite_false] at hn
        exact ih _ n hn

/-! ### Lemmas about `midiNoteToPitch` and the tick table -/

/-- JS `%` (truncated remainder) of a negative number by 12 is
non-positive. -/
theorem tmod12_nonpos_of_neg {m : Int} (hm : m < 0) : Int.tmod m 12 ≤ 0 := by
  cases m with
  | ofNat k => exact absurd hm (not_lt.mpr (Int.ofNat_nonneg k))
  | negSucc k =>
    have hdef : Int.tmod (Int.negSucc k) 12 = -(((k + 1) % 12 : Nat) : Int) := rfl
    rw [hdef]
    omega

/-- For a nonnegative MIDI number the pitch is a well-formed string: a
name from the table followed by the octave `floor(m / 12) - 1`. -/
theorem midiNoteToPitch_ofNonneg (m : Int) (hm : 0 ≤ m) :
    ∃ nm, nm ∈ noteNames ∧ lookupName (Int.tmod m 12) = some nm ∧
      midiNoteToPitch m = .str (nm ++ toString (Int.fdiv m 12 - 1)) := by
  have h0 : 0 ≤ Int.tmod m 12 := Int.tmod_nonneg 12 hm
  have hlt : Int.tmod m 12 < 12 := Int.tmod_lt_of_pos m (by norm_num)
  have hlen : (Int.tmod m 12).toNat < noteNames.length := by
    have : (Int.tmod m 12).toNat < 12 := by omega
    simpa [noteNames] using this
  refine ⟨noteNames.get ⟨(Int.tmod m 12).toNat, hlen⟩, List.get_mem .., ?_, ?_⟩
  · rw [lookupName, if_pos h0]
    exact List.get?_eq_get hlen
  · rw [midiNoteToPitch, lookupName, if_pos h0, List.get?_eq_get hlen]

/-- For a negative MIDI number that is not an exact multiple of 12, the
table index is negative, the lookup misses, and `undefined + octave`
(numeric addition with a Number) produces `NaN` — no pitch string and no
raised error. -/
theorem midiNoteToPitch_ofNeg (m : Int) (hm : m < 0) (hr : Int.tmod m 12 ≠ 0) :
    lookupName (Int.tmod m 12) = none ∧ midiNoteToPitch m = .nan := by
  have h1 : Int.tmod m 12 < 0 := lt_of_le_of_ne (tmod12_nonpos_of_neg hm) hr
  have h2 : lookupName (Int.tmod m 12) = none := by
    rw [lookupName, if_neg (not_le.mpr h1)]
  exact ⟨h2, by rw [midiNoteToPitch, h2]⟩

/-- Any duration outside the table's six keys takes the fallback. -/
theorem tickFor_of_not_mem (d : Rat)
    (h : d ∉ ([mkRat 1 4, mkRat 1 2, 1, 2, 4, 8] : List Rat)) :
    tickFor d = tickFor 1 := by
  simp only [List.mem_cons, List.not_mem_nil, or_false, not_or] at h
  obtain ⟨h1, h2, h3, h4, h5, h6⟩ := h
  have ht : tickFor 1 = "T8" := by decide
  rw [ht, tickFor, durationToTicks]
  simp [h1, h2, h3, h4, h5, h6]

/-! ### Lemmas about `validate` -/

/-- On non-blank input, the error list is the concatenation of the four
conditional checks, in source order. -/
theorem validateL_errors (l : List Char) (hne : (jsTrim l).isEmpty = false) :
    (validateL l).errors =
      (if l.any isNoteLetter then [] else [noNotesMsg]) ++
      ((if hasSub "K:".data l then [] else [claveMsg]) ++
      ((if hasSub "M:".data l then [] else [compasMsg]) ++
      (if (noteSectionOf l).isEmpty then []
       else if (invalidCharsOf l).isEmpty then []
       else [invalidCharsMsg (invalidCharsOf l)]))) := by
  rw [validateL, if_neg (by simp [hne])]
  simp [List.append_assoc]

/-- `isValid` is the emptiness of the error list in both branches of
`validate`. -/
theorem validateL_isValid (l : List Char) :
    (validateL l).isValid = (validateL l).errors.isEmpty := by
  rw [validateL]
  split <;> rfl

/-- The invalid-character entry never coincides with another message:
its first characters differ. -/
theorem invMsg_ne (chars : List Char) (m : String)
    (hm : "Caracteres inválidos en las notas: ".data.take 4 ≠ m.data.take 4) :
    invalidCharsMsg chars ≠ m := by
  intro h
  have h4 := congrArg (fun s : String => s.data.take 4) h
  simp only [invalidCharsMsg, String.data_append] at h4
  rw [List.take_append_of_le_length (by decide)] at h4
  exact hm h4

/-- Membership in a conditionally emitted singleton. -/
theorem mem_ite_single {x m : String} {c : Prop} [Decidable c] :
    x ∈ (if c then ([] : List String) else [m]) ↔ ¬c ∧ x = m := by
  split <;> simp_all

/-- Membership in the conditionally emitted invalid-characters entry. -/
theorem mem_ite_ite_single {x m : String} {a b : Prop} [Decidable a] [Decidable b] :
    x ∈ (if a then ([] : List String)
         else if b then ([] : List String) else [m]) ↔ ¬a ∧ ¬b ∧ x = m := by
  split
  · simp_all
  · rw [mem_ite_single]
    simp_all

/-- A nonempty invalid-character list forces a nonempty note section. -/
theorem noteSection_nonempty_of_invalid {l : List Char}
    (h : (invalidCharsOf l).isEmpty = false) :
    (noteSectionOf l).isEmpty = false := by
  by_contra h'
  have h1 : (noteSectionOf l).isEmpty = true := by
    revert h'
    cases (noteSectionOf l).isEmpty <;> simp
  have h2 : noteSectionOf l = [] := List.isEmpty_iff.mp h1
  rw [invalidCharsOf, h2] at h
  simp at h

/-! ## Claim theorems -/

/-- C1: for the scenario input `"X:1\nT:Test Escala\nM:4/4\nK:C\nCDEFGABc"`,
the header carries title `"Test Escala"`, key `"C"` and default tempo
120, and `validate` reports `isValid = true` — but the body holds
exactly ONE note, not the eight the claim (and the repository's own
end-to-end test, which expects a note count of 8 for this very input)
states: the greedy `[^,']*` group of the note regex consumes the seven
letters `DEFGABc` into the first note's accidental text. -/
theorem c1_scenario :
    (parse "X:1\nT:Test Escala\nM:4/4\nK:C\nCDEFGABc").header.title = "Test Escala" ∧
    (parse "X:1\nT:Test Escala\nM:4/4\nK:C\nCDEFGABc").header.key = "C" ∧
    (parse "X:1\nT:Test Escala\nM:4/4\nK:C\nCDEFGABc").header.tempo = 120 ∧
    (validate "X:1\nT:Test Escala\nM:4/4\nK:C\nCDEFGABc").isValid = true ∧
    (parse "X:1\nT:Test Escala\nM:4/4\nK:C\nCDEFGABc").body.map Note.accidental =
      ["DEFGABc"] ∧
    (parse "X:1\nT:Test Escala\nM:4/4\nK:C\nCDEFGABc").body.length = 1 ∧
    (parse "X:1\nT:Test Escala\nM:4/4\nK:C\nCDEFGABc").body.length ≠ 8 := by
  decide

/-- C2: a digit string directly after the note letter is captured by the
greedy `[^,']*` (accidental) group, not by the duration group, so `"C2"`
yields duration 1 with accidental text `"2"` — contradicting the claim
(and the README's documented `C2D2E4F2G2` duration syntax).  Digits are
captured as a duration only after octave markers, as in `"C,2"`. -/
theorem c2_duration_digits :
    (parseBody ["C2"]).map Note.duration = [1] ∧
    (parseBody ["C2"]).map Note.accidental = ["2"] ∧
    (parseBody ["C,2"]).map Note.duration = [2] ∧
    (parseBody ["C2"]).map Note.duration ≠ [2] := by
  decide

/-- C3 counterexample: parsing `"^C"` yields MIDI number 60 = base + 0,
not base + 1 as the claim states — the regex only attaches marker
characters that FOLLOW the letter, so a leading `^` is skipped as noise. -/
theorem c3_counterexample :
    noteToMidi 'C' = 60 ∧
    (parseBody ["^C"]).map Note.midiNote = [60] ∧
    (parseBody ["^C"]).map Note.midiNote ≠ [61] := by
  decide

/-- C3 amended: accidental markers act when they follow the letter:
`"C^"` gives base + 1, `"C_"` gives base - 1, and a `=` anywhere in the
captured markers forces offset 0 regardless of order (`"C=^"`, `"C^="`);
markers before the letter (`"^C"`) contribute nothing. -/
theorem c3_amended :
    (parseBody ["C^"]).map Note.midiNote = [61] ∧
    (parseBody ["C_"]).map Note.midiNote = [59] ∧
    (parseBody ["C=^"]).map Note.midiNote = [60] ∧
    (parseBody ["C^="]).map Note.midiNote = [60] ∧
    (parseBody ["^C"]).map Note.midiNote = [60] := by
  decide

/-- C4 counterexample: a duration of literal 0 IS reachable through the
note-token grammar — digits that follow an octave marker land in the
duration group, so `"C,0"` parses to a single note of duration 0,
refuting the claimed strict positivity. -/
theorem c4_counterexample :
    (parse "C,0").body.map Note.duration = [0] ∧
    ¬(∀ n ∈ (parse "C,0").body, 0 < n.duration) := by
  decide

/-- C4 amended: every parsed note's duration is a nonnegative number (1
when the duration group is empty, the value of the captured digit string
otherwise); zero is reachable only via an explicit `0` digit group. -/
theorem c4_amended (s : String) (n : Note) (hn : n ∈ (parse s).body) :
    0 ≤ n.duration :=
  scanBodyAux_duration_nonneg _ _ n hn

/-- Witness for C4's amended theorem at the input `"C"`. -/
theorem c4_amended_witness :
    (⟨'C', 60, 1, "", 4⟩ : Note) ∈ (parse "C").body ∧
      (0 : Rat) ≤ (⟨'C', 60, 1, "", 4⟩ : Note).duration :=
  ⟨by decide, c4_amended "C" _ (by decide)⟩

/-- C5 counterexample: for `"K:C"` every line is a recognised header
line, so no header/body boundary line exists; the loop then never
assigns `lineCount`, which stays 0, and the body is produced by
re-scanning ALL lines — producing a phantom note from the `C` of `K:C`
instead of the empty body the claim implies. -/
theorem c5_counterexample :
    (∀ l ∈ splitNl (jsTrim "K:C".data), isHeaderishT (jsTrim l) = true) ∧
    (parse "K:C").header.lineCount = 0 ∧
    (parse "K:C").body ≠ [] ∧
    (parse "K:C").body.map Note.note = ['C'] := by
  decide

/-- C5 amended: `lineCount` is the index of the first line that is not a
recognised header/skippable line when such a line exists, and 0 when
every line is a header/skippable line; the body is always produced from
the lines from index `lineCount` onwards (hence, in the all-header case,
from the whole input including the header lines). -/
theorem c5_amended (s : String) :
    (parse s).header.lineCount = boundarySpec (splitNl (jsTrim s.data)) ∧
    (parse s).body =
      parseBodyL ((splitNl (jsTrim s.data)).drop (parse s).header.lineCount) := by
  constructor
  · show (parseHeader (splitNl (jsTrim s.data))).lineCount = _
    rw [parseHeader_eq_headerSpec]
    rfl
  · rfl

/-- C6: `validate` returns `isValid` true exactly when the error list is
empty, and the error list carries: the empty-input entry exactly on
blank input; the no-notes entry exactly when no letter `A-G`/`a-g`
occurs; the missing-clef (`K:`) and missing-meter (`M:`) entries exactly
when those substrings are absent; and the single invalid-character entry
— which names every distinct disallowed character of the note section
once — exactly when such a character exists.  For the input
`"ABC inválido sin estructura"` the result is invalid with a missing-clef
error and an invalid-characters error. -/
theorem c6_validate :
    (∀ s : String,
      ((validate s).isValid = true ↔ (validate s).errors = []) ∧
      (emptyMsg ∈ (validate s).errors ↔ (jsTrim s.data).isEmpty = true) ∧
      (noNotesMsg ∈ (validate s).errors ↔
        ((jsTrim s.data).isEmpty = false ∧ s.data.any isNoteLetter = false)) ∧
      (claveMsg ∈ (validate s).errors ↔
        ((jsTrim s.data).isEmpty = false ∧ hasSub "K:".data s.data = false)) ∧
      (compasMsg ∈ (validate s).errors ↔
        ((jsTrim s.data).isEmpty = false ∧ hasSub "M:".data s.data = false)) ∧
      (invalidCharsMsg (invalidCharsOf s.data) ∈ (validate s).errors ↔
        ((jsTrim s.data).isEmpty = false ∧ (invalidCharsOf s.data).isEmpty = false))) ∧
    ((validate "ABC inválido sin estructura").isValid = false ∧
      claveMsg ∈ (validate "ABC inválido sin estructura").errors ∧
      invalidCharsMsg (invalidCharsOf "ABC inválido sin estructura".data) ∈
        (validate "ABC inválido sin estructura").errors ∧
      (validate "ABC inválido sin estructura").errors =
        [claveMsg, compasMsg,
          "Caracteres inválidos en las notas: i, n, v, á, l, o, s, t, r, u"]) := by
  constructor
  · intro s
    by_cases he : (jsTrim s.data).isEmpty = true
    · have hv : validate s = { isValid := false, errors := [emptyMsg] } := by
        rw [validate, validateL, if_pos (by simp [he])]
      have hne1 : noNotesMsg ≠ emptyMsg := by decide
      have hne2 : claveMsg ≠ emptyMsg := by decide
      have hne3 : compasMsg ≠ emptyMsg := by decide
      have hne4 : invalidCharsMsg (invalidCharsOf s.data) ≠ emptyMsg :=
        invMsg_ne _ _ (by decide)
      rw [hv]
      simp [he, hne1, hne2, hne3, hne4]
    · have hef : (jsTrim s.data).isEmpty = false := by simpa using he
      have herr := validateL_errors s.data hef
      have hval := validateL_isValid s.data
      refine ⟨?_, ?_, ?_, ?_, ?_, ?_⟩
      · show (validateL s.data).isValid = true ↔ (validateL s.data).errors = []
        rw [hval]
        exact ⟨fun h => List.isEmpty_iff.mp h, fun h => by simp [h]⟩
      · show emptyMsg ∈ (validateL s.data).errors ↔ _
        rw [herr]
        have h1 : emptyMsg ≠ noNotesMsg := by decide
        have h2 : emptyMsg ≠ claveMsg := by decide
        have h3 : emptyMsg ≠ compasMsg := by decide
        have h4 : emptyMsg ≠ invalidCharsMsg (invalidCharsOf s.data) :=
          Ne.symm (invMsg_ne _ _ (by decide))
        simp [mem_ite_single, mem_ite_ite_single, h1, h2, h3, h4, hef]
      · show noNotesMsg ∈ (validateL s.data).errors ↔ _
        rw [herr]
        have h2 : noNotesMsg ≠ claveMsg := by decide
        have h3 : noNotesMsg ≠ compasMsg := by decide
        have h4 : noNotesMsg ≠ invalidCharsMsg (invalidCharsOf s.data) :=
          Ne.symm (invMsg_ne _ _ (by decide))
        simp [mem_ite_single, mem_ite_ite_single, h2, h3, h4, hef]
      · show claveMsg ∈ (validateL s.data).errors ↔ _
        rw [herr]
        have h1 : claveMsg ≠ noNotesMsg := by decide
        have h3 : claveMsg ≠ compasMsg := by decide
        have h4 : claveMsg ≠ invalidCharsMsg (invalidCharsOf s.data) :=
          Ne.symm (invMsg_ne _ _ (by decide))
        simp [mem_ite_single, mem_ite_ite_single, h1, h3, h4, hef]
      · show compasMsg ∈ (validateL s.data).errors ↔ _
        rw [herr]
        have h1 : compasMsg ≠ noNotesMsg := by decide
        have h2 : compasMsg ≠ claveMsg := by decide
        have h4 : compasMsg ≠ invalidCharsMsg (invalidCharsOf s.data) :=
          Ne.symm (invMsg_ne _ _ (by decide))
        simp [mem_ite_single, mem_ite_ite_single, h1, h2, h4, hef]
      · show invalidCharsMsg (invalidCharsOf s.data) ∈ (validateL s.data).errors ↔ _
        rw [herr]
        have k1 : invalidCharsMsg (invalidCharsOf s.data) ≠ noNotesMsg :=
          invMsg_ne _ _ (by decide)
        have k2 : invalidCharsMsg (invalidCharsOf s.data) ≠ claveMsg :=
          invMsg_ne _ _ (by decide)
        have k3 : invalidCharsMsg (invalidCharsOf s.data) ≠ compasMsg :=
          invMsg_ne _ _ (by decide)
        simp only [List.mem_append, mem_ite_single, mem_ite_ite_single]
        simp [k1, k2, k3, hef]
        intro hB hA
        apply hB
        rw [invalidCharsOf, hA]
        rfl
  · decide

/-- C7: `validateMidiNotes` is valid exactly when every note has a MIDI
number in `[0, 127]` and a positive duration; an out-of-range note at
0-based position `j` emits its range error and a non-positive-duration
note emits its duration error (both messages cite the 1-based index
`j + 1`, which `rangoMsg`/`durMsg` embed); `isValid` is the emptiness of
the error list.  The function is a pure map over the notes: it neither
aborts nor alters them. -/
theorem c7_validateMidiNotes :
    (∀ notes : List Note,
      ((validateMidiNotes notes).isValid = true ↔
        ∀ n ∈ notes, 0 ≤ n.midiNote ∧ n.midiNote ≤ 127 ∧ 0 < n.duration)) ∧
    (∀ (notes : List Note) (j : Nat) (hj : j < notes.length),
      ((notes.get ⟨j, hj⟩).midiNote < 0 ∨ 127 < (notes.get ⟨j, hj⟩).midiNote) →
      rangoMsg j ((notes.get ⟨j, hj⟩).midiNote) ∈ (validateMidiNotes notes).errors) ∧
    (∀ (notes : List Note) (j : Nat) (hj : j < notes.length),
      (notes.get ⟨j, hj⟩).duration ≤ 0 →
      durMsg j ((notes.get ⟨j, hj⟩).duration) ∈ (validateMidiNotes notes).errors) ∧
    (∀ notes : List Note,
      (validateMidiNotes notes).isValid = (validateMidiNotes notes).errors.isEmpty) := by
  refine ⟨?_, ?_, ?_, fun notes => rfl⟩
  · intro notes
    show (vmAux 0 notes).isEmpty = true ↔ _
    rw [List.isEmpty_iff]
    exact vmAux_eq_nil_iff notes 0
  · intro notes j hj hc
    have h := vmAux_mem_rango notes 0 j hj hc
    simpa using h
  · intro notes j hj hc
    have h := vmAux_mem_dur notes 0 j hj hc
    simpa using h

/-- Witness for C7 on a one-note list violating both checks. -/
theorem c7_witness :
    rangoMsg 0 200 ∈ (validateMidiNotes [⟨'C', 200, 0, "", 4⟩]).errors ∧
    durMsg 0 0 ∈ (validateMidiNotes [⟨'C', 200, 0, "", 4⟩]).errors :=
  ⟨c7_validateMidiNotes.2.1 [⟨'C', 200, 0, "", 4⟩] 0 (by decide) (by decide),
   c7_validateMidiNotes.2.2.1 [⟨'C', 200, 0, "", 4⟩] 0 (by decide) (by decide)⟩

/-- C8: the tick table maps 0.25, 0.5, 1, 2, 4, 8 to the tokens `T32`
(thirty-second), `T16` (sixteenth), `T8` (eighth), `T4` (quarter), `T2`
(half), `T1` (whole); every other value falls back silently to the same
`T8` class as the value 1 — in particular 3 — and `convertNotesToEvents`
uses this mapping for the event durations. -/
theorem c8_duration_table :
    durationToTicks (mkRat 1 4) = some "T32" ∧
    durationToTicks (mkRat 1 2) = some "T16" ∧
    durationToTicks 1 = some "T8" ∧
    durationToTicks 2 = some "T4" ∧
    durationToTicks 4 = some "T2" ∧
    durationToTicks 8 = some "T1" ∧
    (∀ d : Rat, d ∉ ([mkRat 1 4, mkRat 1 2, 1, 2, 4, 8] : List Rat) →
      tickFor d = tickFor 1) ∧
    tickFor 3 = "T8" ∧
    (convertNotesToEvents [⟨'C', 60, 3, "", 4⟩]).map NoteEvent.duration = ["T8"] := by
  refine ⟨by decide, by decide, by decide, by decide, by decide, by decide,
    tickFor_of_not_mem, by decide, by decide⟩

/-- Witness for C8's fallback clause at the value 3. -/
theorem c8_witness :
    (3 : Rat) ∉ ([mkRat 1 4, mkRat 1 2, 1, 2, 4, 8] : List Rat) ∧
      tickFor 3 = tickFor 1 :=
  ⟨by decide, c8_duration_table.2.2.2.2.2.2.1 3 (by decide)⟩

/-- C9: each recognised tag line of the scanned header prefix populates
its field (`X:` number, `T:` title, `K:` key, `M:` meter, `Q:` tempo,
`L:` default length; the last occurrence wins), fields are computed
independently of one another, and a field whose tag never occurs keeps
its default (`"Untitled"`, `"C"`, `"4/4"`, 120); header construction is
total, so missing `K:`/`M:` lines never prevent it. -/
theorem c9_header_fields (lines : List (List Char)) :
    (parseHeader lines).title = titleSpec lines ∧
    (parseHeader lines).key = keySpec lines ∧
    (parseHeader lines).meter = meterSpec lines ∧
    (parseHeader lines).tempo = tempoSpec lines ∧
    (parseHeader lines).number = numberSpec lines ∧
    (parseHeader lines).defaultLength = defaultLengthSpec lines ∧
    ((∀ l ∈ lines, leadsWith "T:".data (jsTrim l) = false) →
      (parseHeader lines).title = "Untitled") ∧
    ((∀ l ∈ lines, leadsWith "K:".data (jsTrim l) = false) →
      (parseHeader lines).key = "C") ∧
    ((∀ l ∈ lines, leadsWith "M:".data (jsTrim l) = false) →
      (parseHeader lines).meter = "4/4") ∧
    ((∀ l ∈ lines, leadsWith "Q:".data (jsTrim l) = false) →
      (parseHeader lines).tempo = 120) := by
  have hbase := parseHeader_eq_headerSpec lines
  have ht : (parseHeader lines).title = titleSpec lines := by
    rw [hbase]
    exact foldl_apply_title _ headerInit
  have hk : (parseHeader lines).key = keySpec lines := by
    rw [hbase]
    exact foldl_apply_key _ headerInit
  have hm : (parseHeader lines).meter = meterSpec lines := by
    rw [hbase]
    exact foldl_apply_meter _ headerInit
  have htp : (parseHeader lines).tempo = tempoSpec lines := by
    rw [hbase]
    exact foldl_apply_tempo _ headerInit
  have hn : (parseHeader lines).number = numberSpec lines := by
    rw [hbase]
    exact foldl_apply_number _ headerInit
  have hd : (parseHeader lines).defaultLength = defaultLengthSpec lines := by
    rw [hbase]
    exact foldl_apply_defaultLength _ headerInit
  refine ⟨ht, hk, hm, htp, hn, hd, ?_, ?_, ?_, ?_⟩
  · intro habs
    rw [ht, titleSpec]
    refine foldl_tag_absent _ _ _ _ fun t htm => ?_
    obtain ⟨l, hl, rfl⟩ := scannedPrefix_mem htm
    exact habs l hl
  · intro habs
    rw [hk, keySpec]
    refine foldl_tag_absent _ _ _ _ fun t htm => ?_
    obtain ⟨l, hl, rfl⟩ := scannedPrefix_mem htm
    exact habs l hl
  · intro habs
    rw [hm, meterSpec]
    refine foldl_tag_absent _ _ _ _ fun t htm => ?_
    obtain ⟨l, hl, rfl⟩ := scannedPrefix_mem htm
    exact habs l hl
  · intro habs
    rw [htp, tempoSpec]
    refine foldl_tag_absent _ _ _ _ fun t htm => ?_
    obtain ⟨l, hl, rfl⟩ := scannedPrefix_mem htm
    exact habs l hl

/-- Witness for C9's default clauses on the empty header block. -/
theorem c9_witness :
    (parseHeader []).title = "Untitled" ∧ (parseHeader []).key = "C" ∧
    (parseHeader []).meter = "4/4" ∧ (parseHeader []).tempo = 120 :=
  ⟨(c9_header_fields []).2.2.2.2.2.2.1 (by simp),
   (c9_header_fields []).2.2.2.2.2.2.2.1 (by simp),
   (c9_header_fields []).2.2.2.2.2.2.2.2.1 (by simp),
   (c9_header_fields []).2.2.2.2.2.2.2.2.2 (by simp)⟩

/-- C10 counterexample: at the claim's own example the conclusion
fails — `parse` of `"C,,,,,,"` does give MIDI number -12, but JS
`-12 % 12` is `-0`, which indexes entry 0 of the table, so the pitch is
the well-formed string `"C-2"`, not a malformed lookup miss. -/
theorem c10_counterexample :
    (parseBody ["C,,,,,,"]).map Note.midiNote = [-12] ∧
    Int.tmod (-12) 12 = 0 ∧
    lookupName (Int.tmod (-12) 12) = some "C" ∧
    midiNoteToPitch (-12) = .str "C-2" ∧
    (convertNotesToEvents (parseBody ["C,,,,,,"])).map NoteEvent.pitch =
      [.str "C-2"] := by
  decide

/-- C10 amended: `convertNotesToEvents` applies `midiNoteToPitch` to
every note with no range guard; for `m ≥ 0` the pitch is a well-formed
table name plus octave `floor(m/12) - 1`; parse can produce negative
MIDI numbers (`"C,,,,,,"` gives -12, whose pitch is the anomalous but
well-formed `"C-2"`); for negative `m` NOT divisible by 12 the index
`m % 12` is negative, the lookup misses the table, and
`undefined + octave` evaluates to the Number `NaN` rather than a pitch
string — still with no error raised (e.g. `"C_,,,,,,"` parses to -13 and
its event's pitch is `NaN`). -/
theorem c10_amended :
    (∀ m : Int, 0 ≤ m →
      ∃ nm, nm ∈ noteNames ∧ lookupName (Int.tmod m 12) = some nm ∧
        midiNoteToPitch m = .str (nm ++ toString (Int.fdiv m 12 - 1))) ∧
    (∀ m : Int, m < 0 → Int.tmod m 12 ≠ 0 →
      lookupName (Int.tmod m 12) = none ∧ midiNoteToPitch m = .nan) ∧
    (∀ notes : List Note, (convertNotesToEvents notes).map NoteEvent.pitch =
      notes.map fun n => midiNoteToPitch n.midiNote) ∧
    (parseBody ["C,,,,,,"]).map Note.midiNote = [-12] ∧
    midiNoteToPitch (-12) = .str "C-2" ∧
    (parseBody ["C_,,,,,,"]).map Note.midiNote = [-13] ∧
    (convertNotesToEvents (parseBody ["C_,,,,,,"])).map NoteEvent.pitch =
      [PitchResult.nan] := by
  refine ⟨midiNoteToPitch_ofNonneg, midiNoteToPitch_ofNeg,
    fun notes => ?_, by decide, by decide, by decide, by decide⟩
  simp [convertNotesToEvents, List.map_map, Function.comp]

/-- Witness for C10's amended theorem at 61 and -13. -/
theorem c10_witness :
    (∃ nm, nm ∈ noteNames ∧ lookupName (Int.tmod 61 12) = some nm ∧
      midiNoteToPitch 61 = .str (nm ++ toString (Int.fdiv 61 12 - 1))) ∧
    (lookupName (Int.tmod (-13) 12) = none ∧ midiNoteToPitch (-13) = .nan) :=
  ⟨c10_amended.1 61 (by decide), c10_amended.2.1 (-13) (by decide) (by decide)⟩

